import Mathlib

/-!
Verification of the training loop in `src/train.py` of the
music-genre-classification repository.

The file embeds the three functions `train_one_epoch`, `validate` and
`train` shallowly:

* Python floats that matter to the control flow are modelled by `Fl`,
  rationals extended with `+inf`, `-inf` and `nan`, with the IEEE-754
  comparison semantics of `<` (any comparison involving `nan` is false).
* Framework-delegated operations (the feature transform, the model's
  forward pass, the loss function, the optimizer step, and the
  `torch.sum(argmax(pred) == y)` count) are abstract parameters collected
  in `FrameOps`: the repository delegates their computation entirely, and
  no claim depends on their values.
* Mutation is explicit state passing: `train_one_epoch` and `validate`
  return the final model state next to their result, and a raised Python
  exception is an `Except.error`.  `running_loss` in `train_one_epoch` is
  a Python float, so `running_loss / k` raises `ZeroDivisionError` when
  `k = 0` (`pydiv`); inside `validate`'s loop `running_loss` is a tensor,
  whose division never raises, so those divisions are plain `ℚ` division.
* The epoch/validation/checkpoint policy of `train` (lines 106-141) is
  embedded as `trainEpochs`, a recursion over the list of epoch indices
  that threads the policy state (`best_val_loss`, `best_val_accuracy`,
  `epochs_without_improvement`) exactly as the source writes it — in
  particular the source never reassigns `best_val_loss` or
  `best_val_accuracy`, and neither does the embedding.  The per-epoch
  validation results are supplied by an `EpochOracle`, abstracting the
  framework-computed numbers, and the run records a trace of events
  (training pass, validation pass, checkpoint save, early-stop return)
  in source order.
-/

/-- Python float values relevant to the control flow of `train`:
rationals extended with the IEEE special values. -/
inductive Fl where
  | fin : ℚ → Fl
  | inf : Fl
  | neginf : Fl
  | nan : Fl
deriving DecidableEq, Repr

/-- IEEE-754 `<` on `Fl`: every comparison with `nan` is false,
`-inf` is below every non-`nan` value other than itself, and `+inf`
is above every non-`nan` value other than itself. -/
def Fl.lt : Fl → Fl → Bool
  | .nan, _ => false
  | _, .nan => false
  | .neginf, .neginf => false
  | .neginf, _ => true
  | _, .neginf => false
  | .fin a, .fin b => decide (a < b)
  | .fin _, .inf => true
  | .inf, _ => false

/-- A value is finite when it is neither `nan` nor an infinity. -/
def Fl.isFinite : Fl → Bool
  | .fin _ => true
  | _ => false

/-- Abstract model state: the parameter vector, as threaded through the
training loop.  Its contents are never inspected by the repository's
control flow. -/
structure Model where
  weights : List ℚ
deriving DecidableEq, Repr

/-- One batch `(x, y)` drawn from a loader.  `size0` is `x.size(0)`. -/
structure Batch where
  x : ℚ
  y : ℚ
  size0 : ℕ
deriving DecidableEq, Repr

/-- The framework-delegated operations used by `train_one_epoch` and
`validate`: the feature transform, the model forward pass, the scalar
value of the loss, the combined effect of
`zero_grad(); loss.backward(); optimizer.step()` on the weights, and the
integer value of `torch.sum(torch.argmax(pred) == y)`. -/
structure FrameOps where
  transform : ℚ → ℚ
  forward : Model → ℚ → ℚ
  loss_fn : ℚ → ℚ → ℚ
  stepUpdate : Model → ℚ → Model
  sumArgmaxEq : ℚ → ℚ → ℤ

/-- Python division of a float by a number: raises `ZeroDivisionError`
when the divisor is zero. -/
def pydiv (a b : ℚ) : Except String ℚ :=
  if b = 0 then .error "ZeroDivisionError" else .ok (a / b)

/-- The loop of `train_one_epoch` (src/train.py lines 33-49), with the
enumeration index `k` starting at 0 as in `enumerate(pbar)`.  State is
threaded explicitly: model, `running_loss` (a Python float),
`correctly_classified` and `incorrectly_classified`.  The in-loop
`avg_loss = running_loss / k` is a float-by-int division and raises on
`k = 0`; the in-loop `avg_acc` is a tensor division and never raises. -/
def train_one_epoch_go (ops : FrameOps) :
    ℕ → Model → ℚ → ℤ → ℤ → List Batch → Model × Except String (ℚ × ℤ × ℤ)
  | _, m, rl, c, ic, [] => (m, .ok (rl, c, ic))
  | k, m, rl, c, ic, b :: rest =>
    let x := ops.transform b.x
    let pred := ops.forward m x
    let lossv := ops.loss_fn pred b.y
    let m2 := ops.stepUpdate m lossv
    let c2 := c + ops.sumArgmaxEq pred b.y
    let ic2 := ic + ((b.size0 : ℤ) - c2)
    let rl2 := rl + lossv
    match pydiv rl2 (k : ℚ) with
    | .error e => (m2, .error e)
    | .ok _avg_loss =>
      let _avg_acc : ℚ := (c2 : ℚ) / ((c2 : ℚ) + (ic2 : ℚ))
      train_one_epoch_go ops (k + 1) m2 rl2 c2 ic2 rest

/-- `train_one_epoch` (src/train.py lines 20-53): run the loop, then
compute `running_loss / len(trn_loader)` (another float division, which
raises on an empty loader) and the final accuracy. -/
def train_one_epoch (ops : FrameOps) (m : Model) (trn_loader : List Batch) :
    Model × Except String (ℚ × ℚ) :=
  match train_one_epoch_go ops 0 m 0 0 0 trn_loader with
  | (m2, .error e) => (m2, .error e)
  | (m2, .ok (rl, c, ic)) =>
    match pydiv rl (trn_loader.length : ℚ) with
    | .error e => (m2, .error e)
    | .ok avg => (m2, .ok (avg, (c : ℚ) / ((c : ℚ) + (ic : ℚ))))

/-- The loop of `validate` (src/train.py lines 68-80), with the
enumeration index starting at 1 (`enumerate(pbar, start=1)`).  The body
runs under `torch.no_grad()` and contains no `backward`/`optimizer.step`
call, so the model state is passed through unchanged; `running_loss` is
a tensor here, so the in-loop divisions never raise. -/
def validate_go (ops : FrameOps) :
    ℕ → Model → ℚ → ℤ → ℤ → List Batch → Model × ℚ × ℤ × ℤ
  | _, m, rl, c, ic, [] => (m, rl, c, ic)
  | k, m, rl, c, ic, b :: rest =>
    let x := ops.transform b.x
    let pred := ops.forward m x
    let lossv := ops.loss_fn pred b.y
    let c2 := c + ops.sumArgmaxEq pred b.y
    let ic2 := ic + ((b.size0 : ℤ) - c2)
    let rl2 := rl + lossv
    let _avg_loss : ℚ := rl2 / (k : ℚ)
    let _avg_acc : ℚ := (c2 : ℚ) / ((c2 : ℚ) + (ic2 : ℚ))
    validate_go ops (k + 1) m rl2 c2 ic2 rest

/-- `validate` (src/train.py lines 56-84): run the no-grad loop, then
`running_loss / len(val_loader)`; on an empty loader `running_loss` is
still the Python float `0.`, so that division raises. -/
def validate (ops : FrameOps) (m : Model) (val_loader : List Batch) :
    Model × Except String (ℚ × ℚ) :=
  let t := validate_go ops 1 m 0 0 0 val_loader
  let m2 := t.1
  let rl := t.2.1
  let c := t.2.2.1
  let ic := t.2.2.2
  match pydiv rl (val_loader.length : ℚ) with
  | .error e => (m2, .error e)
  | .ok avg => (m2, .ok (avg, (c : ℚ) / ((c : ℚ) + (ic : ℚ))))

/-- The policy state of `train` (src/train.py lines 106-109).
`epochs_without_improvement` is a Python int, modelled by `ℤ`. -/
structure LoopState where
  best_val_loss : Fl
  best_val_accuracy : Fl
  epochs_without_improvement : ℤ
deriving DecidableEq, Repr

/-- The state set up before the epoch loop:
`best_val_loss = torch.inf`, `best_val_accuracy = 0.`,
`epochs_without_improvement = 0`. -/
def initState : LoopState :=
  { best_val_loss := Fl.inf
    best_val_accuracy := Fl.fin 0
    epochs_without_improvement := 0 }

/-- Observable events of one run of `train`, in source order: the
training pass (lines 112-120), the validation pass (lines 122-129), a
`save_checkpoint` call, and the early-stopping `return model`. -/
inductive Event where
  | trainPass (epoch : ℕ)
  | validatePass (epoch : ℕ)
  | checkpointSave (epoch : ℕ)
  | earlyStopReturn (epoch : ℕ)
deriving DecidableEq, Repr

/-- The per-epoch validation results `(val_loss, val_accuracy)` returned
by `validate` at each epoch, abstracting the framework-computed numbers
(the training pass, scheduler and model evolution are delegated wholesale
to the framework, so the sequence of validation results of a run is some
function of the epoch index). -/
structure EpochOracle where
  valLoss : ℕ → Fl
  valAcc : ℕ → Fl

/-- Outcome of a run of `train`: final policy state, the event trace,
and whether the run returned early (line 141) rather than exhausting
`range(num_epochs)`. -/
structure RunResult where
  final : LoopState
  trace : List Event
  early : Bool
deriving DecidableEq, Repr

/-- The epoch loop of `train` (src/train.py lines 111-141) over an
explicit list of epoch indices.  Each epoch runs the training pass, then
the validation pass, then the decision:
`if val_loss < best_val_loss` save and reset the counter;
`elif val_accuracy < best_val_accuracy` save and reset the counter;
else increment the counter and, when it reaches `early_stopping`, save
and return.  The source never reassigns `best_val_loss` or
`best_val_accuracy`, and neither does this embedding. -/
def trainEpochs (o : EpochOracle) (early_stopping : ℤ) :
    List ℕ → LoopState → RunResult
  | [], s => ⟨s, [], false⟩
  | e :: rest, s =>
    let vl := o.valLoss e
    let va := o.valAcc e
    if Fl.lt vl s.best_val_loss then
      let r := trainEpochs o early_stopping rest
        { s with epochs_without_improvement := 0 }
      ⟨r.final,
       .trainPass e :: .validatePass e :: .checkpointSave e :: r.trace,
       r.early⟩
    else if Fl.lt va s.best_val_accuracy then
      let r := trainEpochs o early_stopping rest
        { s with epochs_without_improvement := 0 }
      ⟨r.final,
       .trainPass e :: .validatePass e :: .checkpointSave e :: r.trace,
       r.early⟩
    else
      let s2 := { s with
        epochs_without_improvement := s.epochs_without_improvement + 1 }
      if s2.epochs_without_improvement ≥ early_stopping then
        ⟨s2,
         [.trainPass e, .validatePass e, .checkpointSave e,
          .earlyStopReturn e],
         true⟩
      else
        let r := trainEpochs o early_stopping rest s2
        ⟨r.final, .trainPass e :: .validatePass e :: r.trace, r.early⟩

/-- `train` (src/train.py lines 93-141): the epoch loop over
`range(num_epochs)` starting from `initState`. -/
def train (o : EpochOracle) (early_stopping : ℤ) (num_epochs : ℕ) :
    RunResult :=
  trainEpochs o early_stopping (List.range num_epochs) initState

/-- The policy state at the moment epoch `k`'s comparison starts: the
state left by the first `k` epochs (the training and validation passes
of epoch `k` do not touch the policy state). -/
def stateBeforeEpoch (o : EpochOracle) (early_stopping : ℤ) (k : ℕ) :
    LoopState :=
  (trainEpochs o early_stopping (List.range k) initState).final

/-- Recognizer for training-pass events, to count epochs in a trace. -/
def Event.isTrainPass : Event → Bool
  | .trainPass _ => true
  | _ => false

/-- The trace of a list of per-epoch blocks: each block is the epoch's
training pass, then its validation pass, then its decision events. -/
def blocksTrace : List (ℕ × List Event) → List Event
  | [] => []
  | p :: ps =>
    Event.trainPass p.1 :: Event.validatePass p.1 :: (p.2 ++ blocksTrace ps)

/-- The trace of a run in which every epoch takes the loss branch:
each epoch contributes its training pass, validation pass and a
checkpoint save, and nothing else. -/
def fullTrace : List ℕ → List Event
  | [] => []
  | e :: rest =>
    Event.trainPass e :: Event.validatePass e :: Event.checkpointSave e ::
      fullTrace rest

/-- Oracle with constant finite validation loss 5 and accuracy 1/2,
used to exhibit that `best_val_loss` is never updated. -/
def oConst5 : EpochOracle :=
  { valLoss := fun _ => Fl.fin 5, valAcc := fun _ => Fl.fin (1/2) }

/-- Oracle with constant finite validation loss 1 and accuracy 1/2. -/
def oFin1 : EpochOracle :=
  { valLoss := fun _ => Fl.fin 1, valAcc := fun _ => Fl.fin (1/2) }

/-- Oracle whose validation loss is always `nan` and accuracy 1:
neither the loss branch nor the accuracy branch fires from `initState`. -/
def oNanAcc1 : EpochOracle :=
  { valLoss := fun _ => Fl.nan, valAcc := fun _ => Fl.fin 1 }

/-- Oracle whose validation loss is always `nan` and accuracy -1: the
loss branch does not fire, the accuracy branch does (since -1 < 0). -/
def oNanAccNeg : EpochOracle :=
  { valLoss := fun _ => Fl.nan, valAcc := fun _ => Fl.fin (-1) }

/-  ------------------------------------------------------------------
    Theorems
    ------------------------------------------------------------------ -/

/-- Helper: the epoch loop never reassigns `best_val_loss` or
`best_val_accuracy` — they keep whatever values they had on entry. -/
theorem trainEpochs_best_unchanged (o : EpochOracle) (es : ℤ)
    (l : List ℕ) (s : LoopState) :
    (trainEpochs o es l s).final.best_val_loss = s.best_val_loss ∧
    (trainEpochs o es l s).final.best_val_accuracy = s.best_val_accuracy := by
  induction l generalizing s with
  | nil => exact ⟨rfl, rfl⟩
  | cons e rest ih =>
    simp only [trainEpochs]
    split
    · exact (ih _)
    · split
      · exact (ih _)
      · split
        · exact ⟨rfl, rfl⟩
        · exact (ih _)

/-- Claim C7: at the start of `train`, before any epoch runs, the policy
state is exactly `best_val_loss = +inf`, `best_val_accuracy = 0`,
`epochs_without_improvement = 0`. -/
theorem train_initial_state (o : EpochOracle) (es : ℤ) :
    stateBeforeEpoch o es 0 = initState ∧
    initState.best_val_loss = Fl.inf ∧
    initState.best_val_accuracy = Fl.fin 0 ∧
    initState.epochs_without_improvement = 0 :=
  ⟨rfl, rfl, rfl, rfl⟩

/-- Claim C1 (code divergence): after epoch 0 returns the finite
validation loss 5, the state at the start of epoch 1's comparison still
has `best_val_loss = +inf`: the code never assigns `best_val_loss`, so
it does not equal the minimum (namely 5) of the previous epochs'
validation losses as the claim requires. -/
theorem best_val_loss_not_updated :
    oConst5.valLoss 0 = Fl.fin 5 ∧
    (stateBeforeEpoch oConst5 10 1).best_val_loss = Fl.inf ∧
    (stateBeforeEpoch oConst5 10 1).best_val_loss ≠ Fl.fin 5 := by
  refine ⟨rfl, ?_, ?_⟩ <;> decide

/-- Claim C3: for every epoch whose validation loss satisfies
`val_loss < best_val_loss`, a checkpoint is saved and
`epochs_without_improvement` is reset to 0 (lines 131-133), after which
the loop continues with the remaining epochs. -/
theorem train_loss_branch (o : EpochOracle) (es : ℤ) (e : ℕ)
    (rest : List ℕ) (s : LoopState)
    (hL : Fl.lt (o.valLoss e) s.best_val_loss = true) :
    trainEpochs o es (e :: rest) s =
      (let r := trainEpochs o es rest
        { s with epochs_without_improvement := 0 }
       ⟨r.final,
        .trainPass e :: .validatePass e :: .checkpointSave e :: r.trace,
        r.early⟩) := by
  simp only [trainEpochs, hL, if_true]

/-- Witness for C3 at a concrete input: validation loss 1 is below the
initial `best_val_loss = +inf`, so epoch 0 saves a checkpoint and resets
the counter. -/
theorem train_loss_branch_witness :
    Fl.lt (oFin1.valLoss 0) initState.best_val_loss = true ∧
    trainEpochs oFin1 3 [0] initState =
      ⟨{ initState with epochs_without_improvement := 0 },
       [.trainPass 0, .validatePass 0, .checkpointSave 0], false⟩ :=
  ⟨by decide, by
    rw [train_loss_branch oFin1 3 0 [] initState (by decide)]
    rfl⟩

/-- Claim C6: if an epoch's validation loss is not an improvement but
`val_accuracy < best_val_accuracy` holds (as written, the branch fires
on a WORSE-than-best accuracy), a checkpoint is saved and
`epochs_without_improvement` is reset to 0; the else branch that would
increment the counter is not taken. -/
theorem train_acc_branch (o : EpochOracle) (es : ℤ) (e : ℕ)
    (rest : List ℕ) (s : LoopState)
    (hL : Fl.lt (o.valLoss e) s.best_val_loss = false)
    (hA : Fl.lt (o.valAcc e) s.best_val_accuracy = true) :
    trainEpochs o es (e :: rest) s =
      (let r := trainEpochs o es rest
        { s with epochs_without_improvement := 0 }
       ⟨r.final,
        .trainPass e :: .validatePass e :: .checkpointSave e :: r.trace,
        r.early⟩) := by
  simp only [trainEpochs, hL, hA, if_true, if_false, Bool.false_eq_true]

/-- Witness for C6 at a concrete input: validation loss `nan` fails the
loss comparison, and accuracy -1 is below the initial best accuracy 0,
so epoch 0 saves a checkpoint and resets the counter. -/
theorem train_acc_branch_witness :
    Fl.lt (oNanAccNeg.valLoss 0) initState.best_val_loss = false ∧
    Fl.lt (oNanAccNeg.valAcc 0) initState.best_val_accuracy = true ∧
    trainEpochs oNanAccNeg 3 [0] initState =
      ⟨{ initState with epochs_without_improvement := 0 },
       [.trainPass 0, .validatePass 0, .checkpointSave 0], false⟩ :=
  ⟨by decide, by decide, by
    rw [train_acc_branch oNanAccNeg 3 0 [] initState (by decide) (by decide)]
    rfl⟩

/-- Claim C2: when neither the loss branch nor the accuracy branch is
taken, `epochs_without_improvement` is incremented by 1; if it thereby
reaches the `early_stopping` threshold the run saves a checkpoint and
returns early, with none of the remaining epochs executed; otherwise the
loop continues with the incremented counter. -/
theorem train_else_branch (o : EpochOracle) (es : ℤ) (e : ℕ)
    (rest : List ℕ) (s : LoopState)
    (hL : Fl.lt (o.valLoss e) s.best_val_loss = false)
    (hA : Fl.lt (o.valAcc e) s.best_val_accuracy = false) :
    (s.epochs_without_improvement + 1 ≥ es →
      trainEpochs o es (e :: rest) s =
        ⟨{ s with epochs_without_improvement :=
             s.epochs_without_improvement + 1 },
         [.trainPass e, .validatePass e, .checkpointSave e,
          .earlyStopReturn e],
         true⟩) ∧
    (¬ s.epochs_without_improvement + 1 ≥ es →
      trainEpochs o es (e :: rest) s =
        (let r := trainEpochs o es rest
          { s with epochs_without_improvement :=
              s.epochs_without_improvement + 1 }
         ⟨r.final, .trainPass e :: .validatePass e :: r.trace,
          r.early⟩)) := by
  constructor <;> intro h <;>
    simp only [trainEpochs, hL, hA, if_false, Bool.false_eq_true] <;>
    split
  · rfl
  · rename_i h2
    exact absurd h h2
  · rename_i h2
    exact absurd h2 h
  · rfl

/-- Witness for C2 at a concrete input: with validation loss `nan` and
accuracy 1 neither branch fires from `initState`; with threshold 1 the
counter reaches it immediately and the run stops early after saving. -/
theorem train_else_branch_witness :
    Fl.lt (oNanAcc1.valLoss 0) initState.best_val_loss = false ∧
    Fl.lt (oNanAcc1.valAcc 0) initState.best_val_accuracy = false ∧
    initState.epochs_without_improvement + 1 ≥ 1 ∧
    trainEpochs oNanAcc1 1 [0, 1] initState =
      ⟨{ initState with epochs_without_improvement := 1 },
       [.trainPass 0, .validatePass 0, .checkpointSave 0,
        .earlyStopReturn 0],
       true⟩ :=
  ⟨by decide, by decide, by decide, by
    rw [(train_else_branch oNanAcc1 1 0 [1] initState (by decide)
      (by decide)).1 (by decide)]
    decide⟩

/-- Claim C4: for every non-empty training loader, the first iteration
of `train_one_epoch`'s loop computes `running_loss / k` with the
enumeration index `k = 0`, so the function raises `ZeroDivisionError` on
the very first batch and never returns normally — whatever the model,
the framework operations, or the remaining batches. -/
theorem train_one_epoch_div_by_zero (ops : FrameOps) (m : Model)
    (b : Batch) (rest : List Batch) :
    (train_one_epoch ops m (b :: rest)).2 =
      Except.error "ZeroDivisionError" := by
  simp [train_one_epoch, train_one_epoch_go, pydiv]

/-- Helper: `validate`'s loop threads the model state unchanged — its
body contains no `backward`/`optimizer.step` call. -/
theorem validate_go_model_unchanged (ops : FrameOps) (k : ℕ) (m : Model)
    (rl : ℚ) (c ic : ℤ) (l : List Batch) :
    (validate_go ops k m rl c ic l).1 = m := by
  induction l generalizing k rl c ic with
  | nil => rfl
  | cons b rest ih => exact ih _ _ _ _

/-- Claim C10: `validate` leaves the model's parameters unchanged: for
every model, framework operations (transform, forward, loss) and loader,
the model state coming out of `validate` equals the state going in — the
pass runs under `no_grad` and performs no optimizer step, and only the
averaged loss and accuracy are returned next to it. -/
theorem validate_model_unchanged (ops : FrameOps) (m : Model)
    (val_loader : List Batch) :
    (validate ops m val_loader).1 = m := by
  simp only [validate]
  split <;> exact validate_go_model_unchanged ops 1 m 0 0 0 val_loader

/-- Helper: a finite value is strictly below `+inf` in the IEEE order. -/
theorem Fl.isFinite_lt_inf (x : Fl) (h : x.isFinite = true) :
    Fl.lt x Fl.inf = true := by
  cases x <;> simp_all [Fl.isFinite, Fl.lt]

/-- Helper: when every epoch's validation loss is finite and
`best_val_loss` is `+inf` on entry (which it stays, being never
reassigned), every epoch takes the loss branch: the run never stops
early, its trace is the full train/validate/save trace, and the counter
is 0 at the end. -/
theorem trainEpochs_all_finite (o : EpochOracle) (es : ℤ)
    (h : ∀ e, (o.valLoss e).isFinite = true)
    (l : List ℕ) (s : LoopState) (hs : s.best_val_loss = Fl.inf) :
    trainEpochs o es l s =
      ⟨if l.isEmpty then s else { s with epochs_without_improvement := 0 },
       fullTrace l, false⟩ := by
  induction l generalizing s with
  | nil => rfl
  | cons e rest ih =>
    have hlt : Fl.lt (o.valLoss e) s.best_val_loss = true := by
      rw [hs]; exact Fl.isFinite_lt_inf _ (h e)
    simp only [trainEpochs, hlt, if_true, fullTrace]
    rw [ih { s with epochs_without_improvement := 0 } hs]
    cases rest <;> rfl

/-- Helper: the training pass of every listed epoch appears in the full
trace. -/
theorem mem_fullTrace_trainPass (e : ℕ) (l : List ℕ) (he : e ∈ l) :
    Event.trainPass e ∈ fullTrace l := by
  induction l with
  | nil => cases he
  | cons a rest ih =>
    rcases List.mem_cons.mp he with h1 | h2
    · subst h1; simp [fullTrace]
    · simp only [fullTrace, List.mem_cons]
      exact Or.inr (Or.inr (Or.inr (ih h2)))

/-- Helper: the full trace contains no early-stop event. -/
theorem earlyStop_not_mem_fullTrace (e : ℕ) (l : List ℕ) :
    Event.earlyStopReturn e ∉ fullTrace l := by
  induction l with
  | nil => simp [fullTrace]
  | cons a rest ih => simp [fullTrace, ih]

/-- Claim C5: because `best_val_loss` starts at `+inf` and is never
reassigned, every epoch with a finite validation loss takes the loss
branch; hence when all validation losses are finite the counter stays 0,
the early-stopping return is unreachable, and `train` runs all
`num_epochs` epochs. -/
theorem train_all_finite_runs_all_epochs (o : EpochOracle) (es : ℤ)
    (n : ℕ) (h : ∀ e, (o.valLoss e).isFinite = true) :
    (train o es n).early = false ∧
    (train o es n).final.epochs_without_improvement = 0 ∧
    (∀ e, e < n → Event.trainPass e ∈ (train o es n).trace) ∧
    (∀ e, Event.earlyStopReturn e ∉ (train o es n).trace) := by
  have key := trainEpochs_all_finite o es h (List.range n) initState rfl
  refine ⟨?_, ?_, ?_, ?_⟩
  · simp only [train, key]
  · simp only [train, key]
    split <;> rfl
  · intro e he
    simp only [train, key]
    exact mem_fullTrace_trainPass e _ (List.mem_range.mpr he)
  · intro e
    simp only [train, key]
    exact earlyStop_not_mem_fullTrace e _

/-- Witness for C5 at a concrete input: the constant oracle with finite
loss 1 makes a 3-epoch run with threshold 1 finish without stopping. -/
theorem train_all_finite_runs_all_epochs_witness :
    (oFin1.valLoss 0).isFinite = true ∧
    (train oFin1 1 3).early = false ∧
    Event.trainPass 2 ∈ (train oFin1 1 3).trace :=
  ⟨rfl,
   (train_all_finite_runs_all_epochs oFin1 1 3 (fun _ => rfl)).1,
   (train_all_finite_runs_all_epochs oFin1 1 3
     (fun _ => rfl)).2.2.1 2 (by decide)⟩

/-- Helper: the number of training passes in a run's trace is bounded by
the number of listed epochs. -/
theorem trainEpochs_countP_le (o : EpochOracle) (es : ℤ)
    (l : List ℕ) (s : LoopState) :
    ((trainEpochs o es l s).trace.countP Event.isTrainPass) ≤ l.length := by
  induction l generalizing s with
  | nil => simp [trainEpochs]
  | cons e rest ih =>
    simp only [trainEpochs]
    split
    · have hih := ih { s with epochs_without_improvement := 0 }
      simp [List.countP_cons, Event.isTrainPass]
      omega
    · split
      · have hih := ih { s with epochs_without_improvement := 0 }
        simp [List.countP_cons, Event.isTrainPass]
        omega
      · split
        · simp [List.countP_cons, Event.isTrainPass]
        · have hih := ih { s with epochs_without_improvement :=
            s.epochs_without_improvement + 1 }
          simp [List.countP_cons, Event.isTrainPass]
          omega

/-- Claim C8: `train` executes at most `num_epochs` epochs — the trace
of every run contains at most `num_epochs` training passes — and the
loop terminates (the embedding is a total structural recursion over
`range(num_epochs)`). -/
theorem train_at_most_num_epochs (o : EpochOracle) (es : ℤ) (n : ℕ) :
    ((train o es n).trace.countP Event.isTrainPass) ≤ n := by
  have := trainEpochs_countP_le o es (List.range n) initState
  simpa [train] using this

/-- Helper: every run's trace decomposes into per-epoch blocks of the
form training pass, validation pass, then decision events, where the
decision events of a block are empty, a single checkpoint save, or a
checkpoint save followed by the early-stop return — all for that same
epoch. -/
theorem trainEpochs_blocks (o : EpochOracle) (es : ℤ)
    (l : List ℕ) (s : LoopState) :
    ∃ blocks : List (ℕ × List Event),
      (trainEpochs o es l s).trace = blocksTrace blocks ∧
      ∀ p ∈ blocks,
        p.2 = [] ∨ p.2 = [Event.checkpointSave p.1] ∨
        p.2 = [Event.checkpointSave p.1, Event.earlyStopReturn p.1] := by
  induction l generalizing s with
  | nil => exact ⟨[], rfl, by simp⟩
  | cons e rest ih =>
    simp only [trainEpochs]
    split
    · obtain ⟨bs, htr, hok⟩ := ih { s with epochs_without_improvement := 0 }
      refine ⟨(e, [Event.checkpointSave e]) :: bs, ?_, ?_⟩
      · simp [blocksTrace, htr]
      · intro p hp
        rcases List.mem_cons.mp hp with h1 | h2
        · subst h1; exact Or.inr (Or.inl rfl)
        · exact hok p h2
    · split
      · obtain ⟨bs, htr, hok⟩ := ih { s with epochs_without_improvement := 0 }
        refine ⟨(e, [Event.checkpointSave e]) :: bs, ?_, ?_⟩
        · simp [blocksTrace, htr]
        · intro p hp
          rcases List.mem_cons.mp hp with h1 | h2
          · subst h1; exact Or.inr (Or.inl rfl)
          · exact hok p h2
      · split
        · refine ⟨[(e, [Event.checkpointSave e, Event.earlyStopReturn e])],
            ?_, ?_⟩
          · simp [blocksTrace]
          · intro p hp
            rcases List.mem_cons.mp hp with h1 | h2
            · subst h1; exact Or.inr (Or.inr rfl)
            · cases h2
        · obtain ⟨bs, htr, hok⟩ := ih { s with epochs_without_improvement :=
            s.epochs_without_improvement + 1 }
          refine ⟨(e, []) :: bs, ?_, ?_⟩
          · simp [blocksTrace, htr]
          · intro p hp
            rcases List.mem_cons.mp hp with h1 | h2
            · subst h1; exact Or.inl rfl
            · exact hok p h2

/-- Claim C9: within every epoch the steps occur in order — training
pass, then validation pass, then the checkpoint/early-stop decision.
Every run's trace is a concatenation of per-epoch blocks starting with
that epoch's training pass and validation pass, and the only events that
follow them in a block are a checkpoint save, optionally followed by the
early-stop return, for that same epoch: a save or early stop never
precedes its epoch's validation pass. -/
theorem train_epoch_event_order (o : EpochOracle) (es : ℤ) (n : ℕ) :
    ∃ blocks : List (ℕ × List Event),
      (train o es n).trace = blocksTrace blocks ∧
      ∀ p ∈ blocks,
        p.2 = [] ∨ p.2 = [Event.checkpointSave p.1] ∨
        p.2 = [Event.checkpointSave p.1, Event.earlyStopReturn p.1] :=
  trainEpochs_blocks o es (List.range n) initState
